import Mathlib

/-!
Shallow embedding of the progressive pitch-extraction and segment cache of
`src/services/PitchDataManager.ts`, together with theorems checking the
natural-language specification against it.

Real numbers of the source (times, durations, pitch values) are embedded as
rationals, and sample indices as integers.  The decoded audio buffer and the
external pitch detector are modelled together as an oracle `AudioEnv` that
assigns to every frame start index the detector's `(pitch, clarity)` answer.
JavaScript `NaN` is not representable in `ℚ`, so the `isNaN` test inside
`medianFilter` is identically false in this embedding.

The JavaScript `Map<number, PitchSegment>` always has key set `0 .. n-1`
(keys are created only by `initializeSegments` / `initialize`, and later
`set` calls reuse existing keys, which preserves insertion order), so it is
embedded as a `List PitchSegment` indexed by position.
-/

/-- The `ProgressiveLoadingConfig` interface of the source. -/
structure ProgressiveLoadingConfig where
  thresholdDuration : ℚ
  segmentDuration : ℚ
  preloadSegments : ℕ
  maxCachedSegments : ℕ
deriving DecidableEq

/-- The `PitchSegment` interface of the source. -/
structure PitchSegment where
  startTime : ℚ
  endTime : ℚ
  times : List ℚ
  pitches : List (Option ℚ)
  isProcessed : Bool
deriving DecidableEq, Inhabited

/-- The `PitchData` interface of the source. -/
structure PitchData where
  times : List ℚ
  pitches : List (Option ℚ)
deriving DecidableEq

/-- The decoded audio buffer together with the external pitch detector
(`pitchy`'s `PitchDetector`): `findPitch i` is the `(pitch, clarity)` pair
the detector returns on the 2048-sample frame starting at sample index `i`.
`numSamples` is `channelData.length`. -/
structure AudioEnv where
  numSamples : ℤ
  sampleRate : ℚ
  findPitch : ℤ → ℚ × ℚ

/-- The mutable fields of class `PitchDataManager`: the segment map,
`totalDuration`, `isProgressiveMode`, and whether `currentFile` is non-null. -/
structure ManagerState where
  segments : List PitchSegment
  totalDuration : ℚ
  isProgressiveMode : Bool
  hasFile : Bool
deriving DecidableEq

/-- `medianFilter` (source lines 36-51): element `i` gathers the non-null
(and, in JavaScript, non-`NaN`) values with index `j` running from
`max 0 (i - ⌊w/2⌋)` up to `min (len-1) (i + ⌊w/2⌋)`, sorts them ascending and
takes the entry at index `⌊count/2⌋`; when the window holds no valid value the
output is `none`.  Natural subtraction makes `i - w/2` the `Math.max(0, ...)`
of the source. -/
def medianFilter (arr : List (Option ℚ)) (windowSize : ℕ) : List (Option ℚ) :=
  (List.range arr.length).map (fun i =>
    let lo := i - windowSize / 2
    let hi := min (arr.length - 1) (i + windowSize / 2)
    let window : List ℚ := (List.range' lo (hi + 1 - lo)).filterMap (fun j => arr.getD j none)
    if 0 < window.length then
      (List.insertionSort (fun a b => a ≤ b) window).get? (window.length / 2)
    else none)

/-- The window of valid values as §4.3 of the spec words it: all non-null
values whose index lies in the inclusive window `[i - ⌊w/2⌋, i + ⌊w/2⌋]`
clamped to the array bounds, in index order. -/
def specWindow (arr : List (Option ℚ)) (windowSize : ℕ) (i : ℕ) : List ℚ :=
  ((List.range arr.length).filter
      (fun (j : ℕ) => decide ((i : ℤ) - (windowSize / 2 : ℕ) ≤ (j : ℤ) ∧
        (j : ℤ) ≤ (i : ℤ) + (windowSize / 2 : ℕ)))).filterMap
    (fun j => arr.getD j none)

/-- Frame start indices of the extraction loop
`for (let i = startSample; i + frameSize < endSample; i += hopSize)` with
`frameSize = 2048`, `hopSize = 256`: the indices `startSample + 256*k` for
`k < ⌈(endSample - startSample - 2048) / 256⌉` (zero iterations when that
difference is not positive). -/
def frameStarts (startSample endSample : ℤ) : List ℤ :=
  (List.range ((endSample - startSample - 2048 + 255).toNat / 256)).map
    (fun (k : ℕ) => startSample + 256 * (k : ℤ))

/-- The per-frame filter of the extraction loops (source lines 116-120 and
185-189): keep the detected pitch when `pitch ∈ [MIN_PITCH, MAX_PITCH]` and
`clarity ≥ MIN_CLARITY`, else push `null`. -/
def keepPitch (pc : ℚ × ℚ) : Option ℚ :=
  if 60 ≤ pc.1 ∧ pc.1 ≤ 500 ∧ (8 : ℚ) / 10 ≤ pc.2 then some pc.1 else none

/-- Times pushed by the extraction loop scoped to `[startSample, endSample)`. -/
def extractTimes (env : AudioEnv) (startSample endSample : ℤ) : List ℚ :=
  (frameStarts startSample endSample).map (fun (i : ℤ) => (i : ℚ) / env.sampleRate)

/-- Raw (pre-smoothing) pitches pushed by the extraction loop scoped to
`[startSample, endSample)`. -/
def extractPitches (env : AudioEnv) (startSample endSample : ℤ) : List (Option ℚ) :=
  (frameStarts startSample endSample).map (fun i => keepPitch (env.findPitch i))

/-- `processEntireFile` (source lines 102-126): extraction over the whole
buffer (loop bound `i + frameSize < channelData.length`) followed by the
median filter with `MEDIAN_FILTER_SIZE = 5`. -/
def processEntireFile (env : AudioEnv) : PitchData :=
  { times := extractTimes env 0 env.numSamples,
    pitches := medianFilter (extractPitches env 0 env.numSamples) 5 }

/-- `initializeSegments` (source lines 128-140): `⌈totalDuration / sd⌉`
metadata-only segments, segment `i` spanning
`[i*sd, min (i*sd + sd) totalDuration)`. -/
def initializeSegments (totalDuration sd : ℚ) : List PitchSegment :=
  (List.range (⌈totalDuration / sd⌉.toNat)).map (fun (i : ℕ) =>
    { startTime := (i : ℚ) * sd,
      endTime := min ((i : ℚ) * sd + sd) totalDuration,
      times := [], pitches := [], isProcessed := false })

/-- `initialize` (source lines 81-100): record the file, measure the duration,
choose the mode by the duration threshold; whole-file mode processes the whole
buffer into one processed segment, segmented mode only creates metadata. -/
def initializeFile (cfg : ProgressiveLoadingConfig) (env : AudioEnv)
    (totalDuration : ℚ) : ManagerState :=
  if cfg.thresholdDuration < totalDuration then
    { segments := initializeSegments totalDuration cfg.segmentDuration,
      totalDuration := totalDuration, isProgressiveMode := true, hasFile := true }
  else
    let fullPitchData := processEntireFile env
    { segments := [{ startTime := 0, endTime := totalDuration,
                     times := fullPitchData.times, pitches := fullPitchData.pitches,
                     isProcessed := true }],
      totalDuration := totalDuration, isProgressiveMode := false, hasFile := true }

/-- `this.segments.get(i)` for an integer key: present exactly for
`0 ≤ i < n`. -/
def segGet (segs : List PitchSegment) (i : ℤ) : Option PitchSegment :=
  if 0 ≤ i then segs.get? i.toNat else none

/-- `this.segments.set(i, seg)` for an existing integer key. -/
def segSet (segs : List PitchSegment) (i : ℤ) (seg : PitchSegment) : List PitchSegment :=
  if 0 ≤ i then segs.set i.toNat seg else segs

/-- The segment produced by `processSegment`'s extraction (source lines
171-201): times and smoothed pitches for the sample range
`[⌊startTime * sampleRate⌋, ⌊endTime * sampleRate⌋)`, boundaries kept,
`isProcessed` set. -/
def analyzeSegment (env : AudioEnv) (seg : PitchSegment) : PitchSegment :=
  let startSample : ℤ := ⌊seg.startTime * env.sampleRate⌋
  let endSample : ℤ := ⌊seg.endTime * env.sampleRate⌋
  { seg with
    times := extractTimes env startSample endSample,
    pitches := medianFilter (extractPitches env startSample endSample) 5,
    isProcessed := true }

/-- `processSegment` (source lines 159-202): missing or already processed
segment is a silent no-op; a missing file throws `'No file loaded'`; otherwise
the segment is replaced by its analysis. -/
def processSegment (env : AudioEnv) (s : ManagerState) (segmentIndex : ℤ) :
    Except String ManagerState :=
  match segGet s.segments segmentIndex with
  | none => .ok s
  | some seg =>
    if seg.isProcessed then .ok s
    else if s.hasFile = false then .error "No file loaded"
    else .ok { s with segments := segSet s.segments segmentIndex (analyzeSegment env seg) }

/-- `cleanupOldSegments` (source lines 204-222): the keep-set is
`{ currentSegment + i - ⌊maxCachedSegments/2⌋ : i < maxCachedSegments }`;
every processed segment with index outside it keeps its boundaries but loses
`times`/`pitches` and its `isProcessed` flag. -/
def cleanupOldSegments (maxCachedSegments : ℕ) (segs : List PitchSegment)
    (currentSegment : ℤ) : List PitchSegment :=
  let segmentsToKeep : List ℤ :=
    (List.range maxCachedSegments).map
      (fun (i : ℕ) => currentSegment + (i : ℤ) - ((maxCachedSegments / 2 : ℕ) : ℤ))
  segs.enum.map (fun p =>
    if ¬ (p.1 : ℤ) ∈ segmentsToKeep ∧ p.2.isProcessed then
      { p.2 with times := [], pitches := [], isProcessed := false }
    else p.2)

/-- The loop of `loadSegmentsForTimeRange` (source lines 149-153), running
`count` iterations from index `i`:
`if (this.segments.has(i) && !this.segments.get(i)!.isProcessed) await this.processSegment(i)`. -/
def loadLoop (env : AudioEnv) (s : ManagerState) (i : ℤ) :
    (count : ℕ) → Except String ManagerState
  | 0 => .ok s
  | count + 1 =>
    let step : Except String ManagerState :=
      match segGet s.segments i with
      | some seg => if seg.isProcessed then .ok s else processSegment env s i
      | none => .ok s
    match step with
    | .error e => .error e
    | .ok s₁ => loadLoop env s₁ (i + 1) count

/-- The expression `Math.floor(t / this.config.segmentDuration)` by which
`loadSegmentsForTimeRange` (source lines 145-146) derives a segment index from
a time. -/
def segmentIndexForTime (sd t : ℚ) : ℤ := ⌊t / sd⌋

/-- `loadSegmentsForTimeRange` (source lines 142-157): no-op outside
progressive mode; otherwise run the processing loop from `startSegment` to
`endSegment + preloadSegments` inclusive and then clean up with
`startSegment` as center. -/
def loadSegmentsForTimeRange (cfg : ProgressiveLoadingConfig) (env : AudioEnv)
    (s : ManagerState) (startTime endTime : ℚ) : Except String ManagerState :=
  if s.isProgressiveMode = false then .ok s
  else
    let startSegment := segmentIndexForTime cfg.segmentDuration startTime
    let endSegment := segmentIndexForTime cfg.segmentDuration endTime
    let count := (endSegment + cfg.preloadSegments - startSegment + 1).toNat
    match loadLoop env s startSegment count with
    | .error e => .error e
    | .ok s₁ =>
      .ok { s₁ with
            segments := cleanupOldSegments cfg.maxCachedSegments s₁.segments startSegment }

/-- JavaScript `Array.prototype.findIndex`: first index satisfying the
predicate, `-1` when there is none. -/
def jsFindIndex (p : ℚ → Bool) (l : List ℚ) : ℤ :=
  match l.findIdx? p with
  | some n => (n : ℤ)
  | none => -1

/-- Normalization of one `Array.prototype.slice` argument against a length:
negative indices count from the end (clamped at 0), nonnegative ones are
clamped at the length. -/
def jsIndex (len : ℕ) (i : ℤ) : ℕ :=
  if i < 0 then ((len : ℤ) + i).toNat else min i.toNat len

/-- JavaScript `Array.prototype.slice(a, b)`. -/
def jsSlice {α : Type} (l : List α) (a b : ℤ) : List α :=
  (l.take (jsIndex l.length b)).drop (jsIndex l.length a)

/-- `getPitchDataForTimeRange` (source lines 224-240): fold over the segments
in map (= index) order, appending for every processed overlapping segment the
`slice(startIdx, endIdx)` of its data, where both bounds come from
`findIndex` (hence are `-1` when no element qualifies). -/
def getPitchDataForTimeRange (s : ManagerState) (startTime endTime : ℚ) : PitchData :=
  s.segments.foldl
    (fun acc seg =>
      if seg.isProcessed = true ∧ startTime ≤ seg.endTime ∧ seg.startTime ≤ endTime then
        let startIdx := jsFindIndex (fun t => decide (startTime ≤ t)) seg.times
        let endIdx := jsFindIndex (fun t => decide (endTime < t)) seg.times
        { times := acc.times ++ jsSlice seg.times startIdx endIdx,
          pitches := acc.pitches ++ jsSlice seg.pitches startIdx endIdx }
      else acc)
    { times := [], pitches := [] }

/-- The derived segment index as §4.4 of the spec words it:
`segmentIndexForTime(t) = floor(t / segmentDuration)`, clamped to valid
segment indices `[0, numSegments - 1]`.  Stated for comparison with the
unclamped `segmentIndexForTime` the code actually computes. -/
def segmentIndexForTimeSpec (numSegments : ℕ) (sd t : ℚ) : ℤ :=
  max 0 (min ((numSegments : ℤ) - 1) ⌊t / sd⌋)

/-- The range query as §4.7 of the spec words it: for every processed
overlapping segment, slice `times`/`pitches` to the index sub-range
`[first index with time ≥ start, first index with time > end)` — where a
missing bound means the slice runs to the corresponding end of the array —
and concatenate in ascending index order.  Stated for comparison with
`getPitchDataForTimeRange`. -/
def getPitchDataForTimeRangeSpec (s : ManagerState) (startTime endTime : ℚ) : PitchData :=
  s.segments.foldl
    (fun acc seg =>
      if seg.isProcessed = true ∧ startTime ≤ seg.endTime ∧ seg.startTime ≤ endTime then
        let startIdx := ((seg.times.findIdx? (fun t => decide (startTime ≤ t))).getD seg.times.length)
        let endIdx := ((seg.times.findIdx? (fun t => decide (endTime < t))).getD seg.times.length)
        { times := acc.times ++ ((seg.times.take endIdx).drop startIdx),
          pitches := acc.pitches ++ ((seg.pitches.take endIdx).drop startIdx) }
      else acc)
    { times := [], pitches := [] }

/-- The configuration used throughout the spec's scenarios:
`thresholdDuration = 30`, `segmentDuration = 10`, `preloadSegments = 1`,
`maxCachedSegments = 6`. -/
def cfgEx : ProgressiveLoadingConfig :=
  { thresholdDuration := 30, segmentDuration := 10, preloadSegments := 1, maxCachedSegments := 6 }

/-- A minimal concrete audio oracle: sample rate 1, a detector that never
reports a pitch. -/
def envEx : AudioEnv := { numSamples := 0, sampleRate := 1, findPitch := fun _ => (0, 0) }

/-- The state of a freshly constructed `PitchDataManager`, before any
`initialize` call: empty segment map, no file, progressive mode off. -/
def initialState : ManagerState :=
  { segments := [], totalDuration := 0, isProgressiveMode := false, hasFile := false }

/-- A store with one processed segment holding times `0, 1, 2`, used to
exercise the range query's slicing. -/
def exStateC1 : ManagerState :=
  { segments := [{ startTime := 0, endTime := 10, times := [0, 1, 2],
                   pitches := [some 100, some 101, some 102], isProcessed := true }],
    totalDuration := 10, isProgressiveMode := false, hasFile := true }

/-- Scenario B's 5-segment store with segment 1 analyzed, used to exercise the
unclamped evictor center. -/
def exStateC7 : ManagerState :=
  { segments := (initializeSegments 45 10).set 1
      { startTime := 10, endTime := 20, times := [10], pitches := [some 100], isProcessed := true },
    totalDuration := 45, isProgressiveMode := true, hasFile := true }

/-- The well-formedness of a processed segment's times in segmented mode:
every emitted time is `i / sampleRate` for a frame start `i` with
`⌊startTime * sampleRate⌋ ≤ i` and `i + 2048 < ⌊endTime * sampleRate⌋` (the
extraction loop's bounds), so no frame straddles the segment's end. -/
def segTimesOk (sr : ℚ) (seg : PitchSegment) : Prop :=
  seg.isProcessed = true → ∀ t ∈ seg.times, ∃ i : ℤ,
    ⌊seg.startTime * sr⌋ ≤ i ∧ i + 2048 < ⌊seg.endTime * sr⌋ ∧ t = (i : ℚ) / sr

/-- The cleared form a segment takes on eviction. -/
def evicted (seg : PitchSegment) : PitchSegment :=
  { seg with times := [], pitches := [], isProcessed := false }

/-- Membership in the keep list built by `cleanupOldSegments` is exactly the
spec's set-builder form of the keep-set. -/
lemma mem_keepList {m : ℕ} {c x : ℤ} :
    x ∈ (List.range m).map (fun (i : ℕ) => c + (i : ℤ) - ((m / 2 : ℕ) : ℤ)) ↔
      ∃ i : ℕ, i < m ∧ x = c + (i : ℤ) - ((m / 2 : ℕ) : ℤ) := by
  simp only [List.mem_map, List.mem_range]
  constructor
  · rintro ⟨i, hi, rfl⟩; exact ⟨i, hi, rfl⟩
  · rintro ⟨i, hi, rfl⟩; exact ⟨i, hi, rfl⟩

/-- Pointwise description of `cleanupOldSegments`: the segment at position `j`
is cleared when it is processed and outside the keep-set, and untouched
otherwise. -/
lemma cleanupOldSegments_get? (m : ℕ) (segs : List PitchSegment) (c : ℤ) (j : ℕ) :
    (cleanupOldSegments m segs c).get? j =
      (segs.get? j).map (fun seg =>
        if (¬ ∃ i : ℕ, i < m ∧ (j : ℤ) = c + (i : ℤ) - ((m / 2 : ℕ) : ℤ)) ∧ seg.isProcessed then
          evicted seg
        else seg) := by
  unfold cleanupOldSegments
  rw [List.get?_map, List.enum_get?]
  cases hj : segs.get? j with
  | none => rfl
  | some seg =>
    simp only [Option.map_some']
    refine congrArg some (if_congr ?_ rfl rfl)
    rw [mem_keepList]

lemma cleanupOldSegments_length (m : ℕ) (segs : List PitchSegment) (c : ℤ) :
    (cleanupOldSegments m segs c).length = segs.length := by
  unfold cleanupOldSegments
  simp

/-- Claim C5: `cleanup(currentSegmentIndex)` computes the keep-set
`{ currentSegmentIndex + i - ⌊maxCachedSegments/2⌋ : i ∈ [0, maxCachedSegments) }`
and clears `times`/`pitches` and resets `processed` for exactly those processed
segments whose index is not in the keep-set; with `currentSegmentIndex = 1`
and `maxCachedSegments = 6` on a 5-segment store, segments 0-3 are retained
and a processed segment 4 is evicted. -/
theorem cleanup_keepSet (m : ℕ) (segs : List PitchSegment) (c : ℤ) (j : ℕ)
    (seg : PitchSegment) (hj : segs.get? j = some seg) :
    ((¬ ∃ i : ℕ, i < m ∧ (j : ℤ) = c + (i : ℤ) - ((m / 2 : ℕ) : ℤ)) ∧ seg.isProcessed = true →
        (cleanupOldSegments m segs c).get? j =
          some { seg with times := [], pitches := [], isProcessed := false })
    ∧ ((∃ i : ℕ, i < m ∧ (j : ℤ) = c + (i : ℤ) - ((m / 2 : ℕ) : ℤ)) ∨ seg.isProcessed = false →
        (cleanupOldSegments m segs c).get? j = some seg)
    ∧ (cleanupOldSegments 6
          [{ startTime := 0, endTime := 10, times := [0], pitches := [some 70], isProcessed := true },
           { startTime := 10, endTime := 20, times := [10], pitches := [some 71], isProcessed := true },
           { startTime := 20, endTime := 30, times := [20], pitches := [some 72], isProcessed := true },
           { startTime := 30, endTime := 40, times := [30], pitches := [some 73], isProcessed := true },
           { startTime := 40, endTime := 45, times := [40], pitches := [some 74], isProcessed := true }] 1
        = [{ startTime := 0, endTime := 10, times := [0], pitches := [some 70], isProcessed := true },
           { startTime := 10, endTime := 20, times := [10], pitches := [some 71], isProcessed := true },
           { startTime := 20, endTime := 30, times := [20], pitches := [some 72], isProcessed := true },
           { startTime := 30, endTime := 40, times := [30], pitches := [some 73], isProcessed := true },
           { startTime := 40, endTime := 45, times := [], pitches := [], isProcessed := false }]) := by
  refine ⟨?_, ?_, by decide⟩
  · intro h
    rw [cleanupOldSegments_get?, hj]
    simp only [Option.map_some']
    rw [if_pos ⟨h.1, h.2⟩]
    rfl
  · intro h
    rw [cleanupOldSegments_get?, hj]
    simp only [Option.map_some']
    rw [if_neg]
    rintro ⟨hnot, hproc⟩
    rcases h with h | h
    · exact hnot h
    · rw [h] at hproc; exact Bool.false_ne_true hproc

/-- Witness for `cleanup_keepSet` at a concrete store: segment 4 of the
Scenario D store is processed and outside the keep-set of `cleanup(1)`, so it
is cleared. -/
theorem cleanup_keepSet_witness :
    (cleanupOldSegments 6
        [{ startTime := 0, endTime := 10, times := [0], pitches := [some 70], isProcessed := true },
         { startTime := 10, endTime := 20, times := [10], pitches := [some 71], isProcessed := true },
         { startTime := 20, endTime := 30, times := [20], pitches := [some 72], isProcessed := true },
         { startTime := 30, endTime := 40, times := [30], pitches := [some 73], isProcessed := true },
         { startTime := 40, endTime := 45, times := [40], pitches := [some 74], isProcessed := true }] 1).get? 4
      = some { startTime := 40, endTime := 45, times := [], pitches := [], isProcessed := false } :=
  (cleanup_keepSet 6
      [{ startTime := 0, endTime := 10, times := [0], pitches := [some 70], isProcessed := true },
       { startTime := 10, endTime := 20, times := [10], pitches := [some 71], isProcessed := true },
       { startTime := 20, endTime := 30, times := [20], pitches := [some 72], isProcessed := true },
       { startTime := 30, endTime := 40, times := [30], pitches := [some 73], isProcessed := true },
       { startTime := 40, endTime := 45, times := [40], pitches := [some 74], isProcessed := true }] 1 4
      { startTime := 40, endTime := 45, times := [40], pitches := [some 74], isProcessed := true }
      (by decide)).1 (by decide)

/-- Claim C9: `cleanup` leaves every segment's `startTime`/`endTime`
unchanged, changes at most `isProcessed` and `times`/`pitches`, leaves already
unprocessed segments entirely untouched, and is idempotent: a second `cleanup`
with the same argument changes nothing. -/
theorem cleanup_frame_effect (m : ℕ) (segs : List PitchSegment) (c : ℤ) :
    ((cleanupOldSegments m segs c).length = segs.length)
    ∧ (∀ (j : ℕ) (seg seg' : PitchSegment), segs.get? j = some seg →
        (cleanupOldSegments m segs c).get? j = some seg' →
        seg'.startTime = seg.startTime ∧ seg'.endTime = seg.endTime
          ∧ (seg.isProcessed = false → seg' = seg))
    ∧ cleanupOldSegments m (cleanupOldSegments m segs c) c = cleanupOldSegments m segs c := by
  refine ⟨cleanupOldSegments_length m segs c, ?_, ?_⟩
  · intro j seg seg' hj hj'
    rw [cleanupOldSegments_get?, hj, Option.map_some'] at hj'
    have hseg' := (Option.some.injEq _ _).mp hj'
    by_cases hcond : (¬ ∃ i : ℕ, i < m ∧ (j : ℤ) = c + (i : ℤ) - ((m / 2 : ℕ) : ℤ)) ∧
        seg.isProcessed = true
    · rw [if_pos hcond] at hseg'
      subst hseg'
      exact ⟨rfl, rfl, fun hfalse => absurd hcond.2 (by simp [hfalse])⟩
    · rw [if_neg hcond] at hseg'
      subst hseg'
      exact ⟨rfl, rfl, fun _ => rfl⟩
  · apply List.ext
    intro j
    rw [cleanupOldSegments_get?, cleanupOldSegments_get?]
    cases hj : segs.get? j with
    | none => rfl
    | some seg =>
      simp only [Option.map_some']
      by_cases hcond : (¬ ∃ i : ℕ, i < m ∧ (j : ℤ) = c + (i : ℤ) - ((m / 2 : ℕ) : ℤ)) ∧
          seg.isProcessed = true
      · rw [if_pos hcond]
        rw [if_neg (by simp [evicted])]
      · rw [if_neg hcond, if_neg hcond]

/-- Witness for `cleanup_frame_effect`: on the Scenario D store, `cleanup(1)`
preserves segment 4's boundaries even though it clears its data. -/
theorem cleanup_frame_effect_witness :
    ({ startTime := 40, endTime := 45, times := [], pitches := [], isProcessed := false }
        : PitchSegment).startTime
      = ({ startTime := 40, endTime := 45, times := [40], pitches := [some 74],
           isProcessed := true } : PitchSegment).startTime
    ∧ ({ startTime := 40, endTime := 45, times := [], pitches := [], isProcessed := false }
        : PitchSegment).endTime
      = ({ startTime := 40, endTime := 45, times := [40], pitches := [some 74],
           isProcessed := true } : PitchSegment).endTime := by
  have h := (cleanup_frame_effect 6
      [{ startTime := 0, endTime := 10, times := [0], pitches := [some 70], isProcessed := true },
       { startTime := 10, endTime := 20, times := [10], pitches := [some 71], isProcessed := true },
       { startTime := 20, endTime := 30, times := [20], pitches := [some 72], isProcessed := true },
       { startTime := 30, endTime := 40, times := [30], pitches := [some 73], isProcessed := true },
       { startTime := 40, endTime := 45, times := [40], pitches := [some 74], isProcessed := true }]
      1).2.1 4
      { startTime := 40, endTime := 45, times := [40], pitches := [some 74], isProcessed := true }
      { startTime := 40, endTime := 45, times := [], pitches := [], isProcessed := false }
      (by decide) (by decide)
  exact ⟨h.1, h.2.1⟩

/-- Indices of `List.range len` satisfying an interval guard are exactly a
`List.range'` block. -/
lemma filter_range_interval (lo hi1 : ℕ) :
    ∀ len, (List.range len).filter (fun j => decide (lo ≤ j ∧ j < hi1))
      = List.range' lo (min hi1 len - lo)
  | 0 => by simp
  | len + 1 => by
    rw [List.range_succ, List.filter_append, filter_range_interval lo hi1 len]
    by_cases h1 : lo ≤ len ∧ len < hi1
    · have hmin : min hi1 (len + 1) - lo = (min hi1 len - lo) + 1 := by omega
      have hlen : lo + 1 * (min hi1 len - lo) = len := by omega
      rw [hmin, List.range'_concat, hlen]
      simp [h1.1, h1.2]
    · have hmin : min hi1 (len + 1) - lo = min hi1 len - lo := by omega
      rw [hmin]
      simp only [List.filter_cons, List.filter_nil]
      rw [if_neg (by simpa using h1)]
      simp

/-- The window gathered by `medianFilter`'s inner loop equals the window as
the spec words it. -/
lemma medianWindow_eq_specWindow (arr : List (Option ℚ)) (w i : ℕ) (hi : i < arr.length) :
    (List.range' (i - w / 2) (min (arr.length - 1) (i + w / 2) + 1 - (i - w / 2))).filterMap
        (fun j => arr.getD j none)
      = specWindow arr w i := by
  unfold specWindow
  have hguard : ∀ j ∈ List.range arr.length,
      (decide ((i : ℤ) - (w / 2 : ℕ) ≤ (j : ℕ) ∧ (j : ℤ) ≤ (i : ℤ) + (w / 2 : ℕ)))
        = decide (i - w / 2 ≤ j ∧ j < i + w / 2 + 1) := by
    intro j _
    have hiff : (((i : ℤ) - (w / 2 : ℕ) ≤ (j : ℕ) ∧ (j : ℤ) ≤ (i : ℤ) + (w / 2 : ℕ)))
        ↔ (i - w / 2 ≤ j ∧ j < i + w / 2 + 1) := by omega
    exact decide_eq_decide.mpr hiff
  rw [List.filter_congr hguard, filter_range_interval]
  have hcount : min (i + w / 2 + 1) arr.length - (i - w / 2)
      = min (arr.length - 1) (i + w / 2) + 1 - (i - w / 2) := by omega
  rw [hcount]

/-- Claim C2: `medianFilter(arr, w)` returns a same-length sequence whose
element `i` is `none` when the clamped window `[i - ⌊w/2⌋, i + ⌊w/2⌋]` holds
no valid value, and otherwise the element at index `⌊count/2⌋` of the
ascending sort of those values (upper-middle for even counts, never an
average); and Scenario E: `medianFilter([None, 100, 102, None, 98], 5)`
yields `[102, 102, 100, 100, 102]`. -/
theorem medianFilter_matches_spec (arr : List (Option ℚ)) (w : ℕ) (hw : Odd w) :
    ((medianFilter arr w).length = arr.length)
    ∧ (∀ i, i < arr.length →
        ((specWindow arr w i = [] → (medianFilter arr w).get? i = some none)
         ∧ (specWindow arr w i ≠ [] →
             (medianFilter arr w).get? i
               = some (some ((List.insertionSort (fun a b => a ≤ b) (specWindow arr w i)).getD
                   ((specWindow arr w i).length / 2) 0)))))
    ∧ medianFilter [none, some 100, some 102, none, some 98] 5
        = [some 102, some 102, some 100, some 100, some 102] := by
  refine ⟨by simp [medianFilter], ?_, by decide⟩
  intro i hi
  have hget : (medianFilter arr w).get? i
      = some (if 0 < (specWindow arr w i).length then
                (List.insertionSort (fun a b => a ≤ b) (specWindow arr w i)).get?
                  ((specWindow arr w i).length / 2)
              else none) := by
    unfold medianFilter
    rw [List.get?_map, List.get?_range hi, Option.map_some']
    dsimp only
    rw [medianWindow_eq_specWindow arr w i hi]
  constructor
  · intro hempty
    rw [hget, hempty]
    rfl
  · intro hne
    have hpos : 0 < (specWindow arr w i).length := List.length_pos.mpr hne
    have hidx : (specWindow arr w i).length / 2
        < (List.insertionSort (fun a b => a ≤ b) (specWindow arr w i)).length := by
      rw [List.length_insertionSort]
      omega
    rw [hget, if_pos hpos, List.get?_eq_get hidx]
    congr 1
    congr 1
    rw [List.getD_eq_getElem _ _ hidx]
    rfl

/-- Witness for `medianFilter_matches_spec` on the Scenario E input at
index 0, whose window `[100, 102]` has upper-middle element 102. -/
theorem medianFilter_matches_spec_witness :
    (medianFilter [none, some 100, some 102, none, some 98] 5).get? 0 = some (some 102) := by
  have h := ((medianFilter_matches_spec [none, some 100, some 102, none, some 98] 5
      (by decide)).2.1 0 (by decide)).2 (by decide)
  rw [h]
  decide

/-- Segment `i` created by `initializeSegments`. -/
lemma initializeSegments_get (total sd : ℚ) (i : ℕ)
    (h : i < (initializeSegments total sd).length) :
    (initializeSegments total sd).get ⟨i, h⟩
      = { startTime := (i : ℚ) * sd, endTime := min ((i : ℚ) * sd + sd) total,
          times := [], pitches := [], isProcessed := false } := by
  unfold initializeSegments
  simp

/-- `initializeSegments` creates `⌈totalDuration / segmentDuration⌉` segments. -/
lemma initializeSegments_length (total sd : ℚ) :
    (initializeSegments total sd).length = ⌈total / sd⌉.toNat := by
  unfold initializeSegments
  simp

/-- The union of the created segment ranges is exactly `[0, totalDuration)`. -/
lemma initializeSegments_union (total sd : ℚ) (hsd : 0 < sd) :
    (⋃ seg ∈ initializeSegments total sd, Set.Ico seg.startTime seg.endTime)
      = Set.Ico 0 total := by
  ext x
  simp only [Set.mem_iUnion, Set.mem_Ico, initializeSegments, List.mem_map, List.mem_range,
    exists_prop, exists_exists_and_eq_and]
  constructor
  · rintro ⟨i, hi, hx1, hx2⟩
    exact ⟨le_trans (mul_nonneg (Nat.cast_nonneg i) hsd.le) hx1,
      lt_of_lt_of_le hx2 (min_le_right _ _)⟩
  · rintro ⟨hx0, hxt⟩
    have hxsd : (0 : ℚ) ≤ x / sd := div_nonneg hx0 hsd.le
    have hfl0 : 0 ≤ ⌊x / sd⌋ := Int.floor_nonneg.mpr hxsd
    have hcast : ((⌊x / sd⌋.toNat : ℕ) : ℚ) = ((⌊x / sd⌋ : ℤ) : ℚ) := by
      exact_mod_cast congrArg (fun z : ℤ => (z : ℚ)) (Int.toNat_of_nonneg hfl0)
    refine ⟨⌊x / sd⌋.toNat, ?_, ?_, ?_⟩
    · have h1 : ⌊x / sd⌋ < ⌈total / sd⌉ := by
        rw [Int.floor_lt]
        exact lt_of_lt_of_le ((div_lt_div_iff_of_pos_right hsd).mpr hxt) (Int.le_ceil _)
      omega
    · calc ((⌊x / sd⌋.toNat : ℕ) : ℚ) * sd = ((⌊x / sd⌋ : ℤ) : ℚ) * sd := by rw [hcast]
        _ ≤ (x / sd) * sd := by
            exact mul_le_mul_of_nonneg_right (Int.floor_le _) hsd.le
        _ = x := div_mul_cancel₀ x hsd.ne'
    · refine lt_min ?_ hxt
      calc x = (x / sd) * sd := (div_mul_cancel₀ x hsd.ne').symm
        _ < (((⌊x / sd⌋ : ℤ) : ℚ) + 1) * sd := by
            exact mul_lt_mul_of_pos_right (Int.lt_floor_add_one _) hsd
        _ = ((⌊x / sd⌋.toNat : ℕ) : ℚ) * sd + sd := by rw [hcast]; ring

/-- The created segment ranges are pairwise disjoint in index order. -/
lemma initializeSegments_disjoint (total sd : ℚ) (hsd : 0 < sd) :
    (initializeSegments total sd).Pairwise
      (fun a b => Disjoint (Set.Ico a.startTime a.endTime) (Set.Ico b.startTime b.endTime)) := by
  unfold initializeSegments
  rw [List.pairwise_map]
  refine List.Pairwise.imp ?_ (List.pairwise_lt_range _)
  intro i j hij
  refine Set.disjoint_left.mpr ?_
  rintro x ⟨hx1, hx2⟩ ⟨hx3, hx4⟩
  dsimp only at hx1 hx2 hx3 hx4
  have hcast : ((i : ℚ) + 1) ≤ (j : ℚ) := by exact_mod_cast hij
  have h1 : (i : ℚ) * sd + sd ≤ (j : ℚ) * sd := by nlinarith
  have h2 := lt_of_lt_of_le hx2 (min_le_left _ _)
  linarith

/-- Claim C3: after `initialize` the segments partition the timeline — in
segmented mode (`totalDuration > thresholdDuration`) there are
`⌈totalDuration / segmentDuration⌉` segments, segment `i` spans
`[i*segmentDuration, min ((i+1)*segmentDuration) totalDuration)`, the ranges
are pairwise disjoint and their union is exactly `[0, totalDuration)`; in
whole-file mode there is exactly one segment spanning `[0, totalDuration)`. -/
theorem initialize_partition (cfg : ProgressiveLoadingConfig) (env : AudioEnv) (total : ℚ)
    (hsd : 0 < cfg.segmentDuration) :
    (cfg.thresholdDuration < total →
        (initializeFile cfg env total).segments = initializeSegments total cfg.segmentDuration)
    ∧ (total ≤ cfg.thresholdDuration →
        (initializeFile cfg env total).segments.map (fun g => (g.startTime, g.endTime))
          = [(0, total)])
    ∧ ((initializeSegments total cfg.segmentDuration).length
        = ⌈total / cfg.segmentDuration⌉.toNat)
    ∧ (∀ (i : ℕ) (h : i < (initializeSegments total cfg.segmentDuration).length),
        (initializeSegments total cfg.segmentDuration).get ⟨i, h⟩
          = { startTime := (i : ℚ) * cfg.segmentDuration,
              endTime := min (((i : ℚ) + 1) * cfg.segmentDuration) total,
              times := [], pitches := [], isProcessed := false })
    ∧ (initializeSegments total cfg.segmentDuration).Pairwise
        (fun a b => Disjoint (Set.Ico a.startTime a.endTime) (Set.Ico b.startTime b.endTime))
    ∧ (⋃ seg ∈ initializeSegments total cfg.segmentDuration,
        Set.Ico seg.startTime seg.endTime) = Set.Ico 0 total := by
  refine ⟨?_, ?_, initializeSegments_length _ _, ?_,
    initializeSegments_disjoint _ _ hsd, initializeSegments_union _ _ hsd⟩
  · intro h
    simp [initializeFile, h]
  · intro h
    rw [initializeFile, if_neg (not_lt.mpr h)]
    simp
  · intro i h
    rw [initializeSegments_get]
    have : ((i : ℚ) + 1) * cfg.segmentDuration = (i : ℚ) * cfg.segmentDuration + cfg.segmentDuration := by ring
    rw [this]

/-- Witness for `initialize_partition` on Scenario B (`totalDuration = 45`,
`segmentDuration = 10`): the five segments cover `[0, 45)` exactly. -/
theorem initialize_partition_witness :
    (⋃ seg ∈ initializeSegments 45 cfgEx.segmentDuration,
      Set.Ico seg.startTime seg.endTime) = Set.Ico (0 : ℚ) 45 :=
  (initialize_partition cfgEx envEx 45 (by norm_num [cfgEx])).2.2.2.2.2

/-- With a file loaded, `processSegment` never throws: it leaves missing or
processed segments alone and otherwise stores the analysis. -/
lemma processSegment_ok (env : AudioEnv) (s : ManagerState) (idx : ℤ)
    (hfile : s.hasFile = true) :
    processSegment env s idx
      = .ok (match segGet s.segments idx with
             | some seg =>
                 if seg.isProcessed then s
                 else { s with segments := segSet s.segments idx (analyzeSegment env seg) }
             | none => s) := by
  unfold processSegment
  cases h : segGet s.segments idx with
  | none => rfl
  | some seg =>
    by_cases hp : seg.isProcessed
    · simp [hp]
    · simp [hp, hfile]

/-- One unfolding of the processing loop. -/
lemma loadLoop_succ (env : AudioEnv) (s : ManagerState) (i : ℤ) (count : ℕ) :
    loadLoop env s i (count + 1)
      = match (match segGet s.segments i with
               | some seg => if seg.isProcessed then Except.ok s else processSegment env s i
               | none => Except.ok s) with
        | .error e => .error e
        | .ok s₁ => loadLoop env s₁ (i + 1) count := rfl

/-- Characterization of the processing loop: with a file loaded it succeeds,
preserves everything but the segments, and replaces exactly the existing
unprocessed segments with index in `[i, i + count)` by their analysis. -/
lemma loadLoop_spec (env : AudioEnv) :
    ∀ (count : ℕ) (s : ManagerState) (i : ℤ), s.hasFile = true →
    ∃ s', loadLoop env s i count = .ok s'
      ∧ s'.totalDuration = s.totalDuration
      ∧ s'.isProgressiveMode = s.isProgressiveMode
      ∧ s'.hasFile = true
      ∧ s'.segments.length = s.segments.length
      ∧ (∀ (j : ℕ) (seg : PitchSegment), s.segments.get? j = some seg →
          s'.segments.get? j
            = some (if i ≤ (j : ℤ) ∧ (j : ℤ) < i + count ∧ seg.isProcessed = false
                    then analyzeSegment env seg else seg))
  | 0, s, i, hfile => by
    refine ⟨s, rfl, rfl, rfl, hfile, rfl, ?_⟩
    intro j seg hj
    rw [if_neg (by omega)]
    exact hj
  | count + 1, s, i, hfile => by
    cases hstep : segGet s.segments i with
    | none =>
      obtain ⟨s', hok, h1, h2, h3, h4, h5⟩ := loadLoop_spec env count s (i + 1) hfile
      refine ⟨s', ?_, h1, h2, h3, h4, ?_⟩
      · rw [loadLoop_succ, hstep]
        exact hok
      · intro j seg hj
        rw [h5 j seg hj]
        have hji : (j : ℤ) ≠ i := by
          intro hji
          rw [segGet, if_pos (by omega)] at hstep
          have hit : i.toNat = j := by omega
          rw [hit, hj] at hstep
          exact Option.noConfusion hstep
        exact congrArg some (if_congr
          (by constructor <;> (rintro ⟨ha, hb, hc⟩; exact ⟨by omega, by omega, hc⟩)) rfl rfl)
    | some seg₀ =>
      by_cases hp : seg₀.isProcessed
      · obtain ⟨s', hok, h1, h2, h3, h4, h5⟩ := loadLoop_spec env count s (i + 1) hfile
        refine ⟨s', ?_, h1, h2, h3, h4, ?_⟩
        · rw [loadLoop_succ, hstep]
          dsimp only
          rw [if_pos hp]
          exact hok
        · intro j seg hj
          rw [h5 j seg hj]
          by_cases hji : (j : ℤ) = i
          · have h0i : 0 ≤ i := by
              by_contra hneg
              rw [segGet, if_neg (by omega)] at hstep
              exact Option.noConfusion hstep
            rw [segGet, if_pos h0i] at hstep
            have hit : i.toNat = j := by omega
            rw [hit, hj] at hstep
            have hseg : seg = seg₀ := Option.some_injective _ hstep
            have hc1 : ¬ (i + 1 ≤ (j : ℤ) ∧ (j : ℤ) < i + 1 + (count : ℤ)
                ∧ seg.isProcessed = false) := by
              rintro ⟨hcc, -, -⟩
              omega
            have hc2 : ¬ (i ≤ (j : ℤ) ∧ (j : ℤ) < i + ((count + 1 : ℕ) : ℤ)
                ∧ seg.isProcessed = false) := by
              rintro ⟨-, -, hfalse⟩
              rw [hseg, hp] at hfalse
              exact Bool.noConfusion hfalse
            rw [if_neg hc1, if_neg hc2]
          · exact congrArg some (if_congr
              (by constructor <;> (rintro ⟨ha, hb, hc⟩; exact ⟨by omega, by omega, hc⟩)) rfl rfl)
      · have h0i : 0 ≤ i := by
          by_contra hneg
          rw [segGet, if_neg (by omega)] at hstep
          exact Option.noConfusion hstep
        have hlen : i.toNat < s.segments.length := by
          by_contra hge
          rw [segGet, if_pos h0i, List.get?_eq_none.mpr (by omega)] at hstep
          exact Option.noConfusion hstep
        set s₁ : ManagerState :=
          { s with segments := segSet s.segments i (analyzeSegment env seg₀) } with hs₁
        have hfile₁ : s₁.hasFile = true := hfile
        obtain ⟨s', hok, h1, h2, h3, h4, h5⟩ := loadLoop_spec env count s₁ (i + 1) hfile₁
        have hps : processSegment env s i = .ok s₁ := by
          rw [processSegment_ok env s i hfile, hstep]
          simp [hp]
        refine ⟨s', ?_, ?_, ?_, h3, ?_, ?_⟩
        · rw [loadLoop_succ, hstep]
          dsimp only
          rw [if_neg hp, hps]
          exact hok
        · exact h1
        · exact h2
        · rw [h4]
          simp [hs₁, segSet, h0i, List.length_set]
        · intro j seg hj
          by_cases hji : (j : ℤ) = i
          · have hit : i.toNat = j := by omega
            have hj₁ : s₁.segments.get? j = some (analyzeSegment env seg₀) := by
              simp only [hs₁, segSet, if_pos h0i, hit]
              exact List.get?_set_eq_of_lt _ (by omega)
            have hseg : seg = seg₀ := by
              rw [segGet, if_pos h0i, hit, hj] at hstep
              exact Option.some_injective _ hstep
            have hana : (analyzeSegment env seg₀).isProcessed = true := rfl
            rw [h5 j (analyzeSegment env seg₀) hj₁]
            have hc1 : ¬ (i + 1 ≤ (j : ℤ) ∧ (j : ℤ) < i + 1 + (count : ℤ)
                ∧ (analyzeSegment env seg₀).isProcessed = false) := by
              rintro ⟨hcc, -, -⟩
              omega
            have hc2 : i ≤ (j : ℤ) ∧ (j : ℤ) < i + ((count + 1 : ℕ) : ℤ)
                ∧ seg.isProcessed = false := ⟨by omega, by omega, by rw [hseg]; simpa using hp⟩
            rw [if_neg hc1, if_pos hc2, hseg]
          · have hj₁ : s₁.segments.get? j = s.segments.get? j := by
              simp only [hs₁, segSet, if_pos h0i]
              exact List.get?_set_ne _ _ (by omega)
            rw [h5 j seg (by rw [hj₁]; exact hj)]
            exact congrArg some (if_congr
              (by constructor <;> (rintro ⟨ha, hb, hc⟩; exact ⟨by omega, by omega, hc⟩)) rfl rfl)

/-- Claim C7 (amended): the index the loader derives from a time `t` is the
unclamped `⌊t / segmentDuration⌋`; it coincides with the spec's clamped
`segmentIndexForTime` exactly when that floor already lies in
`[0, numSegments - 1]`. -/
theorem segmentIndex_unclamped (n : ℕ) (sd t : ℚ) (hn : 1 ≤ n) :
    segmentIndexForTime sd t = segmentIndexForTimeSpec n sd t
      ↔ 0 ≤ ⌊t / sd⌋ ∧ ⌊t / sd⌋ ≤ (n : ℤ) - 1 := by
  unfold segmentIndexForTime segmentIndexForTimeSpec
  omega

/-- Witness for `segmentIndex_unclamped` at `n = 5`, `sd = 10`, `t = 25`. -/
theorem segmentIndex_unclamped_witness :
    segmentIndexForTime 10 25 = segmentIndexForTimeSpec 5 10 25
      ↔ 0 ≤ ⌊(25 : ℚ) / 10⌋ ∧ ⌊(25 : ℚ) / 10⌋ ≤ (5 : ℤ) - 1 :=
  segmentIndex_unclamped 5 10 25 (by norm_num)

/-- Counterexample to claim C7 as stated: at `t = 60` on Scenario B's
5-segment store the loader derives `⌊60/10⌋ = 6`, not the clamped `4`; and
observably, `loadSegmentsForTimeRange(60, 60)` passes the unclamped `6` to the
evictor, whose keep-set `{3..8}` then evicts processed segment 1 — with the
clamped center `4` the keep-set `{1..6}` would have retained it. -/
theorem segmentIndex_clamped_counterexample :
    segmentIndexForTime cfgEx.segmentDuration 60 ≠ segmentIndexForTimeSpec 5 cfgEx.segmentDuration 60
    ∧ (loadSegmentsForTimeRange cfgEx envEx exStateC7 60 60).map
        (fun s' => s'.segments.map PitchSegment.isProcessed)
      = .ok [false, false, false, false, false]
    ∧ exStateC7.segments.map PitchSegment.isProcessed = [false, true, false, false, false] := by
  refine ⟨?_, by with_unfolding_all rfl, by with_unfolding_all rfl⟩
  have h1 : segmentIndexForTime cfgEx.segmentDuration 60 = 6 := by
    unfold segmentIndexForTime
    norm_num [cfgEx]
  have h2 : segmentIndexForTimeSpec 5 cfgEx.segmentDuration 60 = 4 := by
    unfold segmentIndexForTimeSpec
    norm_num [cfgEx]
  rw [h1, h2]
  decide

/-- Claim C8 (amended): a `loadSegmentsForTimeRange` call on a state with
progressive mode off — which is the case before any successful `initialize`,
as in the freshly constructed `initialState` — returns normally as a no-op
and raises no error; the `'No file loaded'` error is thrown only by
`processSegment`, which is reachable only in progressive mode. -/
theorem noSource_noop (cfg : ProgressiveLoadingConfig) (env : AudioEnv) :
    (∀ (s : ManagerState) (a b : ℚ), s.isProgressiveMode = false →
        loadSegmentsForTimeRange cfg env s a b = .ok s)
    ∧ (∀ (s : ManagerState) (idx : ℤ) (seg : PitchSegment),
        s.hasFile = false → segGet s.segments idx = some seg → seg.isProcessed = false →
        processSegment env s idx = .error "No file loaded")
    ∧ initialState.isProgressiveMode = false ∧ initialState.hasFile = false := by
  refine ⟨?_, ?_, rfl, rfl⟩
  · intro s a b h
    unfold loadSegmentsForTimeRange
    rw [if_pos h]
  · intro s idx seg hfile hget hproc
    unfold processSegment
    rw [hget]
    simp [hproc, hfile]

/-- Witness for `noSource_noop`: the no-op on the initial state, and the
error when `processSegment` does run without a file. -/
theorem noSource_noop_witness :
    loadSegmentsForTimeRange cfgEx envEx initialState 0 10 = .ok initialState
    ∧ processSegment envEx
        { segments := [{ startTime := 0, endTime := 5, times := [], pitches := [],
                         isProcessed := false }],
          totalDuration := 5, isProgressiveMode := true, hasFile := false } 0
      = .error "No file loaded" :=
  ⟨(noSource_noop cfgEx envEx).1 initialState 0 10 rfl,
   (noSource_noop cfgEx envEx).2.1 _ 0
     { startTime := 0, endTime := 5, times := [], pitches := [], isProcessed := false }
     rfl (by decide) rfl⟩

/-- Counterexample to claim C8 as stated: before any `initialize`, the call
`loadSegmentsForTimeRange(0, 10)` returns normally (progressive mode is off),
rather than failing with a no-source error. -/
theorem noSource_counterexample :
    loadSegmentsForTimeRange cfgEx envEx initialState 0 10 = .ok initialState
    ∧ ¬ ∃ e, loadSegmentsForTimeRange cfgEx envEx initialState 0 10 = .error e := by
  have h1 : loadSegmentsForTimeRange cfgEx envEx initialState 0 10 = .ok initialState := by
    with_unfolding_all rfl
  refine ⟨h1, ?_⟩
  rintro ⟨e, he⟩
  rw [h1] at he
  exact Except.noConfusion he

/-- The fold of `getPitchDataForTimeRange` is the concatenation, over the
processed overlapping segments in ascending index order, of the per-segment
slices. -/
lemma rangeQuery_fold_join (a b : ℚ) :
    ∀ (segs : List PitchSegment) (init : PitchData),
    segs.foldl
      (fun acc seg =>
        if seg.isProcessed = true ∧ a ≤ seg.endTime ∧ seg.startTime ≤ b then
          { times := acc.times ++ jsSlice seg.times
              (jsFindIndex (fun t => decide (a ≤ t)) seg.times)
              (jsFindIndex (fun t => decide (b < t)) seg.times),
            pitches := acc.pitches ++ jsSlice seg.pitches
              (jsFindIndex (fun t => decide (a ≤ t)) seg.times)
              (jsFindIndex (fun t => decide (b < t)) seg.times) }
        else acc) init
    = { times := init.times ++ ((segs.filter (fun seg =>
            decide (seg.isProcessed = true ∧ a ≤ seg.endTime ∧ seg.startTime ≤ b))).map
          (fun seg => jsSlice seg.times
            (jsFindIndex (fun t => decide (a ≤ t)) seg.times)
            (jsFindIndex (fun t => decide (b < t)) seg.times))).join,
        pitches := init.pitches ++ ((segs.filter (fun seg =>
            decide (seg.isProcessed = true ∧ a ≤ seg.endTime ∧ seg.startTime ≤ b))).map
          (fun seg => jsSlice seg.pitches
            (jsFindIndex (fun t => decide (a ≤ t)) seg.times)
            (jsFindIndex (fun t => decide (b < t)) seg.times))).join }
  | [], init => by simp
  | seg :: segs, init => by
    rw [List.foldl_cons]
    by_cases h : seg.isProcessed = true ∧ a ≤ seg.endTime ∧ seg.startTime ≤ b
    · have hd : decide (seg.isProcessed = true ∧ a ≤ seg.endTime ∧ seg.startTime ≤ b) = true := by
        simpa using h
      rw [if_pos h, rangeQuery_fold_join a b segs, List.filter_cons, if_pos hd]
      simp only [List.map_cons, List.join_cons]
      rw [List.append_assoc, List.append_assoc]
    · have hd : decide (seg.isProcessed = true ∧ a ≤ seg.endTime ∧ seg.startTime ≤ b) = false := by
        simpa using h
      rw [if_neg h, rangeQuery_fold_join a b segs, List.filter_cons, if_neg (by simp [hd])]

/-- Claim C1 (amended): `getPitchDataForTimeRange(start, end)` concatenates,
over processed segments overlapping `[start, end]` in ascending index order,
the JavaScript `slice(findIndex(time ≥ start), findIndex(time > end))` of
each segment's data — where `findIndex` yields `-1` when no element
qualifies, so a segment all of whose times are `≤ end` (and having some time
`≥ start`) contributes only up to its second-to-last entry: the final entry
is dropped, not included. -/
theorem rangeQuery_concat (s : ManagerState) (a b : ℚ) :
    ((getPitchDataForTimeRange s a b).times
        = ((s.segments.filter (fun seg =>
              decide (seg.isProcessed = true ∧ a ≤ seg.endTime ∧ seg.startTime ≤ b))).map
            (fun seg => jsSlice seg.times
              (jsFindIndex (fun t => decide (a ≤ t)) seg.times)
              (jsFindIndex (fun t => decide (b < t)) seg.times))).join
      ∧ (getPitchDataForTimeRange s a b).pitches
        = ((s.segments.filter (fun seg =>
              decide (seg.isProcessed = true ∧ a ≤ seg.endTime ∧ seg.startTime ≤ b))).map
            (fun seg => jsSlice seg.pitches
              (jsFindIndex (fun t => decide (a ≤ t)) seg.times)
              (jsFindIndex (fun t => decide (b < t)) seg.times))).join)
    ∧ (∀ l : List ℚ, (∀ t ∈ l, ¬ b < t) → (∃ t ∈ l, a ≤ t) →
        jsSlice l (jsFindIndex (fun t => decide (a ≤ t)) l)
            (jsFindIndex (fun t => decide (b < t)) l)
          = l.dropLast.drop (jsFindIndex (fun t => decide (a ≤ t)) l).toNat) := by
  constructor
  · unfold getPitchDataForTimeRange
    rw [rangeQuery_fold_join a b s.segments { times := [], pitches := [] }]
    exact ⟨by simp, by simp⟩
  · intro l hall hex
    have hbfind : l.findIdx? (fun t => decide (b < t)) = none := by
      rw [List.findIdx?_eq_none_iff]
      intro x hx
      simpa using hall x hx
    have hafind : ∃ k, l.findIdx? (fun t => decide (a ≤ t)) = some k := by
      cases hf : l.findIdx? (fun t => decide (a ≤ t)) with
      | some k => exact ⟨k, rfl⟩
      | none =>
        obtain ⟨t, ht, hat⟩ := hex
        have := List.findIdx?_eq_none_iff.mp hf t ht
        simp [hat] at this
    obtain ⟨k, hk⟩ := hafind
    have hklt : k < l.length := by
      have := List.findIdx?_eq_some_iff_findIdx_eq.mp hk
      omega
    unfold jsFindIndex jsSlice jsIndex
    rw [hbfind, hk]
    have h1 : ¬ ((-1 : ℤ) < 0) = False := by simp
    rw [if_pos (by norm_num : (-1 : ℤ) < 0)]
    rw [if_neg (by omega : ¬ ((k : ℤ) < 0))]
    have h2 : ((l.length : ℤ) + (-1)).toNat = l.length - 1 := by omega
    have h3 : min ((k : ℤ)).toNat l.length = k := by omega
    rw [h2, h3, List.dropLast_eq_take]
    have h4 : ((k : ℤ)).toNat = k := by omega
    rw [h4]

/-- Witness for `rangeQuery_concat` on the list `[0, 1, 2]` with
`start = 0`, `end = 5`: the slice is the list without its last element. -/
theorem rangeQuery_concat_witness :
    jsSlice [(0 : ℚ), 1, 2]
        (jsFindIndex (fun t => decide ((0 : ℚ) ≤ t)) [(0 : ℚ), 1, 2])
        (jsFindIndex (fun t => decide ((5 : ℚ) < t)) [(0 : ℚ), 1, 2])
      = ([(0 : ℚ), 1, 2]).dropLast.drop
          (jsFindIndex (fun t => decide ((0 : ℚ) ≤ t)) [(0 : ℚ), 1, 2]).toNat :=
  (rangeQuery_concat exStateC1 0 5).2 [(0 : ℚ), 1, 2] (by decide) (by decide)

/-- Counterexample to claim C1 as stated: on a processed segment with times
`[0, 1, 2]`, the query `[0, 5]` covers every entry, yet the code returns only
`[0, 1]` while the spec's slicing rule (`endIdx` = length when no time
exceeds `end`) yields `[0, 1, 2]`. -/
theorem rangeQuery_concat_counterexample :
    getPitchDataForTimeRange exStateC1 0 5 ≠ getPitchDataForTimeRangeSpec exStateC1 0 5
    ∧ (getPitchDataForTimeRange exStateC1 0 5).times = [0, 1]
    ∧ (getPitchDataForTimeRangeSpec exStateC1 0 5).times = [0, 1, 2] := by
  have h1 : (getPitchDataForTimeRange exStateC1 0 5).times = [0, 1] := by
    with_unfolding_all rfl
  have h2 : (getPitchDataForTimeRangeSpec exStateC1 0 5).times = [0, 1, 2] := by
    with_unfolding_all rfl
  refine ⟨?_, h1, h2⟩
  intro h
  rw [h] at h1
  have h3 : ([0, 1] : List ℚ) = [0, 1, 2] := h1.symm.trans h2
  exact absurd h3 (by decide)

/-- Claim C6: the processing loop analyzes (stores extracted data and marks
processed) exactly the segment indices in `[i, i + count)` that exist and
were unprocessed, leaving every other segment unchanged; and Scenario C:
`loadSegmentsForTimeRange(12, 22)` with `preloadSegments = 1` on Scenario B's
store processes exactly segments 1, 2, 3. -/
theorem loop_analyzes_exactly (env : AudioEnv) (s : ManagerState) (i : ℤ) (count : ℕ)
    (s' : ManagerState) (hfile : s.hasFile = true) (hok : loadLoop env s i count = .ok s') :
    (s'.segments.length = s.segments.length)
    ∧ (∀ (j : ℕ) (seg : PitchSegment), s.segments.get? j = some seg →
        ((i ≤ (j : ℤ) ∧ (j : ℤ) < i + count ∧ seg.isProcessed = false) →
          s'.segments.get? j = some (analyzeSegment env seg))
        ∧ (¬ (i ≤ (j : ℤ) ∧ (j : ℤ) < i + count ∧ seg.isProcessed = false) →
          s'.segments.get? j = some seg))
    ∧ ((loadSegmentsForTimeRange cfgEx envEx (initializeFile cfgEx envEx 45) 12 22).map
        (fun t => t.segments.map PitchSegment.isProcessed)
      = .ok [false, true, true, true, false]) := by
  obtain ⟨s'', hok', h1, h2, h3, h4, h5⟩ := loadLoop_spec env count s i hfile
  have hss : s' = s'' := Except.ok.inj (hok.symm.trans hok')
  subst hss
  refine ⟨h4, ?_, by with_unfolding_all rfl⟩
  intro j seg hj
  exact ⟨fun hc => by rw [h5 j seg hj, if_pos hc],
         fun hc => by rw [h5 j seg hj, if_neg hc]⟩

/-- Witness for `loop_analyzes_exactly`: in the Scenario C run, segment 2 of
the loop's result is the analysis of the original unprocessed segment 2. -/
theorem loop_analyzes_exactly_witness :
    ({ segments :=
        [{ startTime := 0, endTime := 10, times := [], pitches := [], isProcessed := false },
         { startTime := 10, endTime := 20, times := [], pitches := [], isProcessed := true },
         { startTime := 20, endTime := 30, times := [], pitches := [], isProcessed := true },
         { startTime := 30, endTime := 40, times := [], pitches := [], isProcessed := true },
         { startTime := 40, endTime := 45, times := [], pitches := [], isProcessed := false }],
       totalDuration := 45, isProgressiveMode := true, hasFile := true } : ManagerState).segments.get? 2
      = some (analyzeSegment envEx
          { startTime := 20, endTime := 30, times := [], pitches := [], isProcessed := false }) := by
  refine ((loop_analyzes_exactly envEx (initializeFile cfgEx envEx 45) 1 3 _
      (by with_unfolding_all rfl) (by with_unfolding_all rfl)).2.1 2
      { startTime := 20, endTime := 30, times := [], pitches := [], isProcessed := false }
      (by with_unfolding_all rfl)).1 ⟨by norm_num, by norm_num, rfl⟩

/-- End-to-end characterization of `loadSegmentsForTimeRange` in progressive
mode with a file: the loop's analysis followed by the evictor's keep-set
filter, segment by segment. -/
lemma load_spec (cfg : ProgressiveLoadingConfig) (env : AudioEnv) (s : ManagerState) (a b : ℚ)
    (hprog : s.isProgressiveMode = true) (hfile : s.hasFile = true) :
    ∃ s', loadSegmentsForTimeRange cfg env s a b = .ok s'
      ∧ s'.segments.length = s.segments.length
      ∧ ∀ (j : ℕ) (seg : PitchSegment), s.segments.get? j = some seg →
          s'.segments.get? j = some (
            (fun mid =>
              if (¬ ∃ k : ℕ, k < cfg.maxCachedSegments ∧
                    (j : ℤ) = segmentIndexForTime cfg.segmentDuration a + (k : ℤ)
                      - ((cfg.maxCachedSegments / 2 : ℕ) : ℤ)) ∧ mid.isProcessed = true
              then evicted mid else mid)
            (if segmentIndexForTime cfg.segmentDuration a ≤ (j : ℤ)
                ∧ (j : ℤ) < segmentIndexForTime cfg.segmentDuration a
                  + (((segmentIndexForTime cfg.segmentDuration b + (cfg.preloadSegments : ℤ)
                      - segmentIndexForTime cfg.segmentDuration a + 1).toNat : ℕ) : ℤ)
                ∧ seg.isProcessed = false
             then analyzeSegment env seg else seg)) := by
  obtain ⟨s₁, hok₁, h1, h2, h3, hlen₁, hchar₁⟩ :=
    loadLoop_spec env
      ((segmentIndexForTime cfg.segmentDuration b + (cfg.preloadSegments : ℤ)
        - segmentIndexForTime cfg.segmentDuration a + 1).toNat)
      s (segmentIndexForTime cfg.segmentDuration a) hfile
  refine ⟨{ s₁ with segments := (cleanupOldSegments cfg.maxCachedSegments s₁.segments
      (segmentIndexForTime cfg.segmentDuration a) : List PitchSegment) }, ?_, ?_, ?_⟩
  · unfold loadSegmentsForTimeRange
    rw [if_neg (by rw [hprog]; exact Bool.noConfusion)]
    dsimp only
    rw [hok₁]
  · dsimp only
    rw [cleanupOldSegments_length, hlen₁]
  · intro j seg hj
    dsimp only
    rw [cleanupOldSegments_get?, hchar₁ j seg hj, Option.map_some']

/-- Claim C4 (amended): when `loadSegmentsForTimeRange(start, end)` returns
in segmented mode with a file loaded, every existing segment whose index lies
in the requested window `[startSeg, endSeg + preloadSegments]` AND in the
evictor's keep-set centered on `startSeg` is processed; segments of the
window outside the keep-set may have been evicted again by the final cleanup
before the call returned. -/
theorem load_window_keepSet_processed (cfg : ProgressiveLoadingConfig) (env : AudioEnv)
    (s : ManagerState) (a b : ℚ) (s' : ManagerState)
    (hprog : s.isProgressiveMode = true) (hfile : s.hasFile = true)
    (hok : loadSegmentsForTimeRange cfg env s a b = .ok s') :
    ∀ (j : ℕ) (seg' : PitchSegment), s'.segments.get? j = some seg' →
      segmentIndexForTime cfg.segmentDuration a ≤ (j : ℤ) →
      (j : ℤ) ≤ segmentIndexForTime cfg.segmentDuration b + (cfg.preloadSegments : ℤ) →
      (∃ k : ℕ, k < cfg.maxCachedSegments ∧
        (j : ℤ) = segmentIndexForTime cfg.segmentDuration a + (k : ℤ)
          - ((cfg.maxCachedSegments / 2 : ℕ) : ℤ)) →
      seg'.isProcessed = true := by
  obtain ⟨s'', heq, hlen, hchar⟩ := load_spec cfg env s a b hprog hfile
  have hss : s' = s'' := Except.ok.inj (hok.symm.trans heq)
  subst hss
  intro j seg' hj hlow hhigh hkeep
  have hjlen : j < s.segments.length := by
    by_contra hge
    have hnone : s'.segments.get? j = none := List.get?_eq_none.mpr (by rw [hlen]; omega)
    rw [hnone] at hj
    exact Option.noConfusion hj
  obtain ⟨seg, hgs⟩ : ∃ seg, s.segments.get? j = some seg := by
    cases hg : s.segments.get? j with
    | none => rw [List.get?_eq_none] at hg; omega
    | some seg => exact ⟨seg, rfl⟩
  have h := hchar j seg hgs
  rw [hj] at h
  have hval := Option.some_injective _ h
  dsimp only at hval
  rw [if_neg (by rintro ⟨hne, -⟩; exact hne hkeep)] at hval
  by_cases hcond : segmentIndexForTime cfg.segmentDuration a ≤ (j : ℤ)
      ∧ (j : ℤ) < segmentIndexForTime cfg.segmentDuration a
        + (((segmentIndexForTime cfg.segmentDuration b + (cfg.preloadSegments : ℤ)
            - segmentIndexForTime cfg.segmentDuration a + 1).toNat : ℕ) : ℤ)
      ∧ seg.isProcessed = false
  · rw [if_pos hcond] at hval
    rw [hval]
    rfl
  · rw [if_neg hcond] at hval
    rw [hval]
    cases hb : seg.isProcessed with
    | true => rfl
    | false =>
      exfalso
      exact hcond ⟨hlow, by omega, hb⟩

/-- Witness for `load_window_keepSet_processed` on Scenario C: segment 1 is
in the window and the keep-set, and is processed when the call returns. -/
theorem load_window_keepSet_processed_witness :
    ({ startTime := 10, endTime := 20, times := [], pitches := [], isProcessed := true }
      : PitchSegment).isProcessed = true := by
  refine load_window_keepSet_processed cfgEx envEx (initializeFile cfgEx envEx 45) 12 22
      { segments :=
          [{ startTime := 0, endTime := 10, times := [], pitches := [], isProcessed := false },
           { startTime := 10, endTime := 20, times := [], pitches := [], isProcessed := true },
           { startTime := 20, endTime := 30, times := [], pitches := [], isProcessed := true },
           { startTime := 30, endTime := 40, times := [], pitches := [], isProcessed := true },
           { startTime := 40, endTime := 45, times := [], pitches := [], isProcessed := false }],
        totalDuration := 45, isProgressiveMode := true, hasFile := true }
      (by with_unfolding_all rfl) (by with_unfolding_all rfl) (by with_unfolding_all rfl)
      1 _ rfl ?_ ?_ ?_
  · show segmentIndexForTime cfgEx.segmentDuration 12 ≤ (1 : ℤ)
    unfold segmentIndexForTime
    norm_num [cfgEx]
  · show (1 : ℤ) ≤ segmentIndexForTime cfgEx.segmentDuration 22 + (cfgEx.preloadSegments : ℤ)
    unfold segmentIndexForTime
    norm_num [cfgEx]
  · refine ⟨3, by norm_num [cfgEx], ?_⟩
    unfold segmentIndexForTime
    norm_num [cfgEx]

/-- Counterexample to claim C4 as stated: on a 100-second store,
`loadSegmentsForTimeRange(0, 30)` has window `[0, 4]`, but the final
`cleanupOldSegments(0)` keeps only `{-3..2}`, so segment 3 — inside the
requested window — is unprocessed when the call returns. -/
theorem load_window_processed_counterexample :
    ¬ (∀ (s' : ManagerState),
        loadSegmentsForTimeRange cfgEx envEx (initializeFile cfgEx envEx 100) 0 30 = .ok s' →
        ∀ (j : ℕ) (seg' : PitchSegment), s'.segments.get? j = some seg' →
          segmentIndexForTime cfgEx.segmentDuration 0 ≤ (j : ℤ) →
          (j : ℤ) ≤ segmentIndexForTime cfgEx.segmentDuration 30 + (cfgEx.preloadSegments : ℤ) →
          seg'.isProcessed = true) := by
  intro h
  have h2 : ((loadSegmentsForTimeRange cfgEx envEx (initializeFile cfgEx envEx 100) 0 30).map
      (fun s' => s'.segments.map PitchSegment.isProcessed))
      = .ok [true, true, true, false, false, false, false, false, false, false] := by
    with_unfolding_all rfl
  cases hE : loadSegmentsForTimeRange cfgEx envEx (initializeFile cfgEx envEx 100) 0 30 with
  | error e => rw [hE] at h2; exact Except.noConfusion h2
  | ok s' =>
    rw [hE] at h2
    have h3 : s'.segments.map PitchSegment.isProcessed
        = [true, true, true, false, false, false, false, false, false, false] :=
      Except.ok.inj h2
    have h4 : (s'.segments.map PitchSegment.isProcessed).get? 3 = some false := by
      rw [h3]
      rfl
    rw [List.get?_map] at h4
    cases hg : s'.segments.get? 3 with
    | none => rw [hg] at h4; exact Option.noConfusion h4
    | some seg' =>
      rw [hg] at h4
      have h5 : seg'.isProcessed = false := Option.some_injective _ h4
      have h6 := h s' hE 3 seg' hg
        (by unfold segmentIndexForTime; norm_num [cfgEx])
        (by unfold segmentIndexForTime; norm_num [cfgEx])
      rw [h6] at h5
      exact Bool.noConfusion h5


/-- Every frame start produced by the extraction loop lies in
`[startSample, endSample - 2048 - 1]`. -/
lemma frameStarts_bounds (ss es : ℤ) :
    ∀ x ∈ frameStarts ss es, ss ≤ x ∧ x + 2048 < es := by
  intro x hx
  unfold frameStarts at hx
  rw [List.mem_map] at hx
  obtain ⟨k, hk, rfl⟩ := hx
  rw [List.mem_range] at hk
  have h1 : (k + 1) * 256 ≤ (es - ss - 2048 + 255).toNat :=
    (Nat.le_div_iff_mul_le (by norm_num)).mp hk
  omega

/-- The analysis of a segment satisfies the frame-bound invariant. -/
lemma analyzeSegment_segTimesOk (env : AudioEnv) (seg : PitchSegment) :
    segTimesOk env.sampleRate (analyzeSegment env seg) := by
  have htimes : (analyzeSegment env seg).times
      = extractTimes env ⌊seg.startTime * env.sampleRate⌋ ⌊seg.endTime * env.sampleRate⌋ := rfl
  have hstart : (analyzeSegment env seg).startTime = seg.startTime := rfl
  have hend : (analyzeSegment env seg).endTime = seg.endTime := rfl
  intro _ t ht
  rw [htimes] at ht
  rw [hstart, hend]
  unfold extractTimes at ht
  rw [List.mem_map] at ht
  obtain ⟨x, hx, hxt⟩ := ht
  obtain ⟨hx1, hx2⟩ := frameStarts_bounds _ _ x hx
  exact ⟨x, hx1, hx2, hxt.symm⟩

/-- Freshly initialized segments satisfy the invariant vacuously. -/
lemma initializeSegments_segTimesOk (sr total sd : ℚ) :
    ∀ seg ∈ initializeSegments total sd, segTimesOk sr seg := by
  intro seg hseg
  unfold initializeSegments at hseg
  rw [List.mem_map] at hseg
  obtain ⟨i, -, rfl⟩ := hseg
  intro hproc
  exact absurd hproc (by simp)

/-- Evicted segments satisfy the invariant vacuously. -/
lemma evicted_segTimesOk (sr : ℚ) (seg : PitchSegment) : segTimesOk sr (evicted seg) := by
  intro hproc
  exact absurd hproc (by simp [evicted])

/-- Claim C10: in segmented mode every processed segment's times are
`i / sampleRate` with `⌊startTime * sampleRate⌋ ≤ i` and
`i + 2048 < ⌊endTime * sampleRate⌋` — the invariant holds initially, is
preserved by every `loadSegmentsForTimeRange`, and implies that every emitted
time is more than `2048 / sampleRate` seconds before the segment's end, so no
analyzed frame straddles a segment boundary even after all segments are
processed. -/
theorem processed_times_inside_segment (cfg : ProgressiveLoadingConfig) (env : AudioEnv)
    (s : ManagerState) (a b : ℚ) (s' : ManagerState)
    (hsr : 0 < env.sampleRate)
    (hprog : s.isProgressiveMode = true) (hfile : s.hasFile = true)
    (hok : loadSegmentsForTimeRange cfg env s a b = .ok s')
    (hinv : ∀ seg ∈ s.segments, segTimesOk env.sampleRate seg) :
    (∀ seg ∈ s'.segments, segTimesOk env.sampleRate seg)
    ∧ (∀ seg ∈ s'.segments, seg.isProcessed = true → ∀ t ∈ seg.times,
        2048 / env.sampleRate < seg.endTime - t)
    ∧ (∀ total sd : ℚ, ∀ seg ∈ initializeSegments total sd, segTimesOk env.sampleRate seg) := by
  have hmain : ∀ seg ∈ s'.segments, segTimesOk env.sampleRate seg := by
    obtain ⟨s'', heq, hlen, hchar⟩ := load_spec cfg env s a b hprog hfile
    have hss : s' = s'' := Except.ok.inj (hok.symm.trans heq)
    subst hss
    intro seg' hseg'
    obtain ⟨j, hj⟩ := List.mem_iff_get?.mp hseg'
    have hjlen : j < s.segments.length := by
      by_contra hge
      have hnone : s'.segments.get? j = none := List.get?_eq_none.mpr (by rw [hlen]; omega)
      rw [hnone] at hj
      exact Option.noConfusion hj
    obtain ⟨seg, hgs⟩ : ∃ seg, s.segments.get? j = some seg := by
      cases hg : s.segments.get? j with
      | none => rw [List.get?_eq_none] at hg; omega
      | some seg => exact ⟨seg, rfl⟩
    have h := hchar j seg hgs
    rw [hj] at h
    have hval := Option.some_injective _ h
    dsimp only at hval
    have hsegmem : seg ∈ s.segments := List.mem_iff_get?.mpr ⟨j, hgs⟩
    by_cases hloop : segmentIndexForTime cfg.segmentDuration a ≤ (j : ℤ)
        ∧ (j : ℤ) < segmentIndexForTime cfg.segmentDuration a
          + (((segmentIndexForTime cfg.segmentDuration b + (cfg.preloadSegments : ℤ)
              - segmentIndexForTime cfg.segmentDuration a + 1).toNat : ℕ) : ℤ)
        ∧ seg.isProcessed = false
    · rw [if_pos hloop] at hval
      by_cases hev : (¬ ∃ k : ℕ, k < cfg.maxCachedSegments ∧
            (j : ℤ) = segmentIndexForTime cfg.segmentDuration a + (k : ℤ)
              - ((cfg.maxCachedSegments / 2 : ℕ) : ℤ))
          ∧ (analyzeSegment env seg).isProcessed = true
      · rw [if_pos hev] at hval
        rw [hval]
        exact evicted_segTimesOk _ _
      · rw [if_neg hev] at hval
        rw [hval]
        exact analyzeSegment_segTimesOk env seg
    · rw [if_neg hloop] at hval
      by_cases hev : (¬ ∃ k : ℕ, k < cfg.maxCachedSegments ∧
            (j : ℤ) = segmentIndexForTime cfg.segmentDuration a + (k : ℤ)
              - ((cfg.maxCachedSegments / 2 : ℕ) : ℤ)) ∧ seg.isProcessed = true
      · rw [if_pos hev] at hval
        rw [hval]
        exact evicted_segTimesOk _ _
      · rw [if_neg hev] at hval
        rw [hval]
        exact hinv seg hsegmem
  refine ⟨hmain, ?_, fun total sd => initializeSegments_segTimesOk env.sampleRate total sd⟩
  intro seg hseg hproc t ht
  obtain ⟨i, hi1, hi2, rfl⟩ := hmain seg hseg hproc t ht
  have hfloor : ((⌊seg.endTime * env.sampleRate⌋ : ℤ) : ℚ) ≤ seg.endTime * env.sampleRate :=
    Int.floor_le _
  have hcast : ((i : ℚ) + 2048 + 1) ≤ ((⌊seg.endTime * env.sampleRate⌋ : ℤ) : ℚ) := by
    exact_mod_cast hi2
  have hmul : (seg.endTime - (i : ℚ) / env.sampleRate) * env.sampleRate
      = seg.endTime * env.sampleRate - i := by
    field_simp
  apply (div_lt_iff hsr).mpr
  rw [hmul]
  linarith

/-- Witness for `processed_times_inside_segment` on the Scenario C run:
segment 1 of the resulting store satisfies the invariant. -/
theorem processed_times_inside_segment_witness :
    segTimesOk envEx.sampleRate
      { startTime := 10, endTime := 20, times := [], pitches := [], isProcessed := true } := by
  refine (processed_times_inside_segment cfgEx envEx (initializeFile cfgEx envEx 45) 12 22
      { segments :=
          [{ startTime := 0, endTime := 10, times := [], pitches := [], isProcessed := false },
           { startTime := 10, endTime := 20, times := [], pitches := [], isProcessed := true },
           { startTime := 20, endTime := 30, times := [], pitches := [], isProcessed := true },
           { startTime := 30, endTime := 40, times := [], pitches := [], isProcessed := true },
           { startTime := 40, endTime := 45, times := [], pitches := [], isProcessed := false }],
        totalDuration := 45, isProgressiveMode := true, hasFile := true }
      (by norm_num [envEx]) (by with_unfolding_all rfl) (by with_unfolding_all rfl)
      (by with_unfolding_all rfl) ?_).1
      { startTime := 10, endTime := 20, times := [], pitches := [], isProcessed := true }
      (by simp)
  intro seg hseg
  have hsegs : (initializeFile cfgEx envEx 45).segments
      = initializeSegments 45 cfgEx.segmentDuration := by
    with_unfolding_all rfl
  rw [hsegs] at hseg
  exact initializeSegments_segTimesOk envEx.sampleRate 45 cfgEx.segmentDuration seg hseg
